import Mathlib

/-!
# Verification of the sentry exporter's collection engine

Shallow embedding of the exporter package (`exporter.go`, the version whose
`Exporter` carries `maxFetchConccurrency`, a scrape-duration gauge and a
scrape counter, together with `main.go`).

The embedding has two layers:

* a pure data layer translating `collectProjectStats`, the pagination loop of
  `collectOrganizations`, `Collect` and `NewExporter` as functions from an
  abstract remote client (the fetch operations of `sentry.Client`) to the
  values they emit; network time (`time.Now()`) is passed in explicitly as
  unix seconds;
* a small-step interleaving machine for the producer / bounded-queue /
  worker-pool structure of `collectOrganizations` plus the tail of `Collect`,
  used for the concurrency and emission-ordering claims.  One machine event
  `Ev.stat j` stands for the whole block of samples `collectProjectStats`
  sends for job `j` (the worker holds the job for the whole block, so the
  block is finished exactly when the event is in the trace).
-/

namespace SentryExporter

/-- A project as carried inside a team listing: slug and id label values
(the Go code reads `project.Slug` and `project.ID`). -/
structure ProjectRef where
  slug : String
  id : String
  deriving DecidableEq

/-- A team as returned inside an organization detail: slug, id and its
project listing (`team.Slug`, `team.ID`, `team.Projects`). -/
structure TeamRef where
  slug : String
  id : String
  projects : List ProjectRef
  deriving DecidableEq

/-- An organization detail as returned by `GetOrganization`: slug, id and the
team listing (`org.Slug`, `org.ID`, `org.Teams`). -/
structure Org where
  slug : String
  id : String
  teams : List TeamRef
  deriving DecidableEq

/-- An entry of the organization *listing* (`GetOrganizations` / `GetPage`):
only its slug is read, to re-fetch the detail. -/
structure OrgRef where
  slug : String
  deriving DecidableEq

/-- `projectFetchJob`: one unit of work for the worker pool. -/
structure Job where
  organization : Org
  team : TeamRef
  project : ProjectRef
  deriving DecidableEq

/-- The `sentry.StatQuery` values used by the exporter. -/
inductive StatQuery where
  | received
  | rejected
  | blacklisted
  deriving DecidableEq

/-- The static table `collectedProjectStats : map[string]sentry.StatQuery`,
as an association list (Go map iteration order is unspecified; no claim
depends on the order). -/
def collectedProjectStats : List (String × StatQuery) :=
  [("received", StatQuery.received),
   ("rejected", StatQuery.rejected),
   ("blacklisted", StatQuery.blacklisted)]

/-- One point of a statistics time series: `sentry.Stat` is a pair
`[timestamp, value]`; the timestamp is used as unix seconds and the value is
forwarded unchanged (modelled as a rational since no arithmetic is done on
it). -/
structure StatPoint where
  ts : Int
  val : Rat
  deriving DecidableEq

/-- Cursor of the organization-listing pagination (`link.Next`). -/
abbrev Cursor := Nat

/-- `link.Next.Results` as presence of a next-page cursor: `none` means the
page reported no further results. -/
abbrev Link := Option Cursor

/-- The remote client, abstracted to the four fetch operations the engine
calls on `sentry.Client`.  Errors carry no information the engine reads, so
the error type is `Unit`.  `getOrganizations` and `getPage` return the listing
together with the pagination link and a possible error, mirroring the Go
triple `(organizations, link, err)`. -/
structure Client where
  getOrganizations : List OrgRef × Link × Option Unit
  getOrganization : String → Except Unit Org
  getPage : Cursor → List OrgRef × Link × Option Unit
  getProjectStats : Org → ProjectRef → StatQuery → Int → Int → String → Except Unit (List StatPoint)

/-- A `prometheus.Desc`: fully-qualified name, help string and variable label
names. -/
structure Desc where
  fqName : String
  help : String
  variableLabels : List String
  deriving DecidableEq

/-- The `Exporter` struct.  The mutable `totalScrapes` counter is process
state and is threaded explicitly through `Collect` instead of being a
field. -/
structure Exporter where
  client : Client
  maxFetchConccurrency : Nat
  projectStatDesc : Desc
  statResolution : String
  statResolutionDuration : Int
  sentryUp : Desc
  scrapeDurationDesc : Desc
  totalScrapesDesc : Desc

/-- `prometheus.BuildFQName`: joins the non-empty parts with underscores,
returning `""` when the name itself is empty. -/
def buildFQName (ns subsystem nm : String) : String :=
  if nm = "" then ""
  else if ns ≠ "" ∧ subsystem ≠ "" then ns ++ "_" ++ subsystem ++ "_" ++ nm
  else if ns ≠ "" then ns ++ "_" ++ nm
  else if subsystem ≠ "" then subsystem ++ "_" ++ nm
  else nm

/-- The label names of `projectStatDesc` as built in `NewExporter`. -/
def projectLabels : List String :=
  ["organization_slug", "organization_id", "team_slug", "team_id",
   "project_slug", "project_id", "type"]

/-- `NewExporter`: builds the exporter.  The Go function ends in
`return &Exporter{...}, nil` unconditionally; the embedding returns `.ok`
of the same record.  `statResolutionDuration` is `time.Second * 15`, kept in
seconds. -/
def NewExporter (client : Client) (maxFetchConccurrency : Nat) (ns : String) :
    Except Unit Exporter :=
  Except.ok
    { client := client
      maxFetchConccurrency := maxFetchConccurrency
      statResolution := "10s"
      statResolutionDuration := 15
      projectStatDesc :=
        { fqName := buildFQName ns "project" "events_count"
          help := "project count for received events of a given type"
          variableLabels := projectLabels }
      sentryUp :=
        { fqName := ns ++ "_up"
          help := "boolean, 1 if the sentry instance was reachable, zero if not"
          variableLabels := [] }
      scrapeDurationDesc :=
        { fqName := buildFQName ns "exporter" "last_scrape_duration_seconds"
          help := "duration in seconds for the last scrape"
          variableLabels := [] }
      totalScrapesDesc :=
        { fqName := buildFQName ns "exporter" "scrapes_total"
          help := "total number of scrapes"
          variableLabels := [] } }

/-- One emitted project-statistic sample: the label tuple passed to
`MustNewConstMetric` on `projectStatDesc`, the gauge value `lastStat[1]` and
the explicit timestamp `time.Unix(int64(lastStat[0]), 0)`. -/
structure MetricSample where
  orgSlug : String
  orgId : String
  teamSlug : String
  teamId : String
  projSlug : String
  projId : String
  kind : String
  value : Rat
  ts : Int
  deriving DecidableEq

/-- The sample `collectProjectStats` emits for job `job`, kind name `k` and
chosen stat point `p` (the last element of the returned series). -/
def mkSample (job : Job) (k : String) (p : StatPoint) : MetricSample :=
  { orgSlug := job.organization.slug
    orgId := job.organization.id
    teamSlug := job.team.slug
    teamId := job.team.id
    projSlug := job.project.slug
    projId := job.project.id
    kind := k
    value := p.val
    ts := p.ts }

/-- One issued statistics query: the arguments `collectProjectStats` passes to
`GetProjectStats` besides the organization/project (query tag, `since.Unix()`,
`until.Unix()`, resolution). -/
structure StatCall where
  query : StatQuery
  since : Int
  untilT : Int
  resolution : String
  deriving DecidableEq

/-- The query `collectProjectStats` issues for query tag `q` when the fetch
began at unix time `now`: `until := time.Now()`,
`since := until.Add(-e.statResolutionDuration)`. -/
def statCall (e : Exporter) (now : Int) (q : StatQuery) : StatCall :=
  { query := q
    since := now - e.statResolutionDuration
    untilT := now
    resolution := e.statResolution }

/-- One iteration of the kind loop in `collectProjectStats`: fetch the series
for table entry `en`; on error or an empty series emit nothing, otherwise emit
one sample built from the last element (`lastStat := stats[len(stats)-1]`). -/
def fetchKind (e : Exporter) (job : Job) (now : Int) (en : String × StatQuery) :
    Option MetricSample :=
  match e.client.getProjectStats job.organization job.project en.2
      (now - e.statResolutionDuration) now e.statResolution with
  | Except.error _ => none
  | Except.ok [] => none
  | Except.ok (s :: rest) => some (mkSample job en.1 ((s :: rest).getLast (List.cons_ne_nil s rest)))

/-- `collectProjectStats` for one job whose fetch starts at unix time `now`:
the list of queries issued (one per table entry, unconditionally) and the list
of samples sent on the channel. -/
def collectProjectStats (e : Exporter) (job : Job) (now : Int) :
    List StatCall × List MetricSample :=
  (collectedProjectStats.map (fun en => statCall e now en.2),
   collectedProjectStats.filterMap (fetchKind e job now))

/-- Whether, for one job fetched at `now`, the kind-`k` statistics fetch
succeeded with a non-empty series (the condition under which
`collectProjectStats` emits a kind-`k` sample). -/
def kindHit (e : Exporter) (job : Job) (now : Int) (k : String) : Bool :=
  match collectedProjectStats.find? (fun en => en.1 == k) with
  | none => false
  | some en =>
    match e.client.getProjectStats job.organization job.project en.2
        (now - e.statResolutionDuration) now e.statResolution with
    | Except.ok (_ :: _) => true
    | _ => false

/-- The jobs one organization-listing entry contributes: re-fetch the detail
with `GetOrganization`; on error log and skip (no jobs), otherwise one job per
(team, project) of the detail. -/
def orgJobs (c : Client) (ref : OrgRef) : List Job :=
  match c.getOrganization ref.slug with
  | Except.error _ => []
  | Except.ok org =>
    (org.teams.map (fun t => t.projects.map (fun p => Job.mk org t p))).flatten

/-- The pagination loop of `collectOrganizations`, with state
`(organizations, link, err)` exactly as in the Go loop
`for len(organizations) != 0 && err == nil { ... }`.  Returns the jobs
enqueued, the cursors passed to `GetPage` in order, and the final `err`.
`fuel` bounds the number of page fetches; `none` means the loop would still
be running after `fuel` page fetches (the Go loop has no such bound). -/
def walkLoop (c : Client) : Nat → List OrgRef → Link → Option Unit →
    Option (List Job × List Cursor × Option Unit)
  | 0, orgs, link, err =>
    if orgs = [] ∨ err ≠ none then some ([], [], err)
    else
      match link with
      | none => some ((orgs.map (orgJobs c)).flatten, [], none)
      | some _ => none
  | f + 1, orgs, link, err =>
    if orgs = [] ∨ err ≠ none then some ([], [], err)
    else
      match link with
      | none => some ((orgs.map (orgJobs c)).flatten, [], none)
      | some cur =>
        match walkLoop c f (c.getPage cur).1 (c.getPage cur).2.1 (c.getPage cur).2.2 with
        | none => none
        | some (js, reqs, e2) => some ((orgs.map (orgJobs c)).flatten ++ js, cur :: reqs, e2)

/-- `collectOrganizations` as a job producer: runs the pagination loop from
`GetOrganizations` and reports the jobs, the page requests and the liveness
value (`upVal` is `1` iff the final `err` is nil). -/
def collectOrganizations (e : Exporter) (fuel : Nat) :
    Option (List Job × List Cursor × Bool) :=
  match e.client.getOrganizations with
  | (orgs, link, err) =>
    match walkLoop e.client fuel orgs link err with
    | none => none
    | some (jobs, reqs, e2) => some (jobs, reqs, e2.isNone)

/-- Everything sent on the output channel during one scrape, in the abstract:
project-statistic samples, the liveness gauge sample (`true` for value 1),
the scrape-counter sample and the scrape-duration sample (value abstracted). -/
inductive OutEvent where
  | metric (m : MetricSample)
  | upSample (v : Bool)
  | counterSample (n : Nat)
  | durationSample
  deriving DecidableEq

/-- The project-statistic samples of one scrape, job by job; `clock i` is the
unix time at which the fetch for the `i`-th job starts (each job reads its own
`time.Now()`). -/
def scrapeSamples (e : Exporter) (clock : Nat → Int) : Nat → List Job → List MetricSample
  | _, [] => []
  | i, j :: rest =>
    (collectProjectStats e j (clock i)).2 ++ scrapeSamples e clock (i + 1) rest

/-- The number of jobs of a scrape whose kind-`k` fetch succeeded with a
non-empty series, counting the `i`-th job against its own fetch time
`clock i`. -/
def kindHitCount (e : Exporter) (clock : Nat → Int) (k : String) : Nat → List Job → Nat
  | _, [] => 0
  | i, j :: rest =>
    (if kindHit e j (clock i) k then 1 else 0) + kindHitCount e clock k (i + 1) rest

/-- `Collect` with the scrape counter threaded as explicit state: runs
`collectOrganizations`, then increments the counter and emits it, then the
deferred duration sample.  The event list records the emitted values (their
interleaving with worker emissions is the machine's concern, not this
function's); `none` when pagination exceeds `fuel` pages (the Go call would
still be blocked inside `collectOrganizations`, so the counter is not yet
incremented). -/
def Collect (e : Exporter) (fuel : Nat) (clock : Nat → Int) (scrapes : Nat) :
    Option (List OutEvent × Nat) :=
  match collectOrganizations e fuel with
  | none => none
  | some (jobs, _, live) =>
    some ((scrapeSamples e clock 0 jobs).map OutEvent.metric
        ++ [OutEvent.upSample live, OutEvent.counterSample (scrapes + 1),
            OutEvent.durationSample],
      scrapes + 1)

/-- `k` consecutive invocations of `Collect` starting from counter value `n`;
returns the final counter value, `none` as soon as one invocation fails to
terminate within `fuel`. -/
def collectIter (e : Exporter) (fuel : Nat) (clock : Nat → Int) : Nat → Nat → Option Nat
  | 0, n => some n
  | k + 1, n =>
    match Collect e fuel clock n with
    | none => none
    | some (_, n2) => collectIter e fuel clock k n2

variable {J : Type}

/-! ## The interleaving machine

`collectOrganizations` in the source: the work queue
`make(chan *projectFetchJob, e.maxFetchConccurrency)` is created and
`maxFetchConccurrency` workers are started before the pagination loop runs;
the loop enqueues jobs; after the loop the liveness sample is sent
(line order: send `sentryUp`, then the deferred `close(workQueue)` and
`wg.Wait()`).  Back in `Collect`: the counter is incremented and sent, then
the deferred duration sample is sent. -/

/-- An observable channel event of the machine. -/
inductive Ev (J : Type) where
  | stat (j : J)
  | liveness (up : Bool)
  | counter
  | duration
  deriving DecidableEq

/-- State of one worker goroutine: blocked on the queue, holding a job (its
`collectProjectStats` call still running), or returned. -/
inductive WState (J : Type) where
  | idle
  | busy (j : J)
  | exited
  deriving DecidableEq

/-- Control point of the main goroutine: enqueuing jobs (`run`), about to
close the queue (`closing`), inside `wg.Wait()` (`waiting`), counter sent and
duration send pending (`preDuration`), returned from `Collect` (`done`). -/
inductive MPhase where
  | run
  | closing
  | waiting
  | preDuration
  | done
  deriving DecidableEq

/-- Machine state: queue capacity, liveness value to send, jobs not yet
enqueued, buffered queue content, whether the queue is closed, worker states
and the chronological channel trace. -/
structure MState (J : Type) where
  cap : Nat
  up : Bool
  toEnqueue : List J
  queue : List J
  closed : Bool
  workers : List (WState J)
  phase : MPhase
  trace : List (Ev J)
  deriving DecidableEq

/-- Initial state of one scrape: `C` workers are started before any job is
produced, the queue is empty with capacity `C`, nothing was sent yet. -/
def initM (J : Type) (C : Nat) (jobs : List J) (up : Bool) : MState J :=
  { cap := C
    up := up
    toEnqueue := jobs
    queue := []
    closed := false
    workers := List.replicate C WState.idle
    phase := MPhase.run
    trace := [] }

/-- One interleaving step.  Main-goroutine steps: `enq` (channel send of the
next job, blocks while the buffer is full), `live` (send the liveness sample
after the pagination loop, *before* the deferred close/wait), `closeQ`
(deferred `close(workQueue)`), `counter` (`wg.Wait()` returns only once every
worker has exited, then the counter is sent), `duration` (deferred duration
send).  Worker steps at index `i`: `take` (receive a buffered job), `emit`
(finish the job's `collectProjectStats`, sending its samples), `wexit`
(receive on a closed, drained queue reports no more items). -/
inductive Step : MState J → MState J → Prop where
  | enq (s : MState J) (j : J) (rest : List J)
      (hp : s.phase = MPhase.run) (ht : s.toEnqueue = j :: rest)
      (hq : s.queue.length < s.cap) (hc : s.closed = false) :
      Step s { s with toEnqueue := rest, queue := s.queue ++ [j] }
  | live (s : MState J)
      (hp : s.phase = MPhase.run) (ht : s.toEnqueue = []) :
      Step s { s with phase := MPhase.closing, trace := s.trace ++ [Ev.liveness s.up] }
  | closeQ (s : MState J)
      (hp : s.phase = MPhase.closing) :
      Step s { s with phase := MPhase.waiting, closed := true }
  | counter (s : MState J)
      (hp : s.phase = MPhase.waiting) (hw : ∀ w ∈ s.workers, w = WState.exited) :
      Step s { s with phase := MPhase.preDuration, trace := s.trace ++ [Ev.counter] }
  | duration (s : MState J)
      (hp : s.phase = MPhase.preDuration) :
      Step s { s with phase := MPhase.done, trace := s.trace ++ [Ev.duration] }
  | take (s : MState J) (i : Nat) (j : J) (rest : List J)
      (hw : s.workers[i]? = some WState.idle) (hq : s.queue = j :: rest) :
      Step s { s with workers := s.workers.set i (WState.busy j), queue := rest }
  | emit (s : MState J) (i : Nat) (j : J)
      (hw : s.workers[i]? = some (WState.busy j)) :
      Step s { s with workers := s.workers.set i WState.idle, trace := s.trace ++ [Ev.stat j] }
  | wexit (s : MState J) (i : Nat)
      (hw : s.workers[i]? = some WState.idle) (hq : s.queue = [])
      (hc : s.closed = true) :
      Step s { s with workers := s.workers.set i WState.exited }

/-- Reachability under interleaving. -/
def Reach (s t : MState J) : Prop := Relation.ReflTransGen Step s t

/-- Is the event a project-statistic emission? -/
def isStatEv : Ev J → Bool
  | Ev.stat _ => true
  | _ => false

/-- Is the event a counter or duration emission (the two samples `Collect`
sends after `collectOrganizations` returns)? -/
def isBarrierEv : Ev J → Bool
  | Ev.counter => true
  | Ev.duration => true
  | _ => false

/-- No project-statistic event occurs anywhere after a counter or duration
event in the trace. -/
def noStatAfterBarrier : List (Ev J) → Bool
  | [] => true
  | e :: r => (!isBarrierEv e || r.all (fun x => !isStatEv x)) && noStatAfterBarrier r

/-- Some project-statistic event occurs after a liveness event in the
trace. -/
def statAfterLiveness : List (Ev J) → Bool
  | [] => false
  | Ev.liveness _ :: r => r.any (fun x => isStatEv x) || statAfterLiveness r
  | _ :: r => statAfterLiveness r

/-- Number of workers currently holding a job, i.e. statistic fetches in
flight. -/
def busyCount (ws : List (WState J)) : Nat :=
  ws.countP (fun w =>
    match w with
    | WState.busy _ => true
    | _ => false)

structure MInv (s : MState J) : Prop where
  wlen : s.workers.length = s.cap
  qlen : s.queue.length ≤ s.cap
  run_enq : s.phase ≠ MPhase.run → s.toEnqueue = []
  exited_closed : WState.exited ∈ s.workers → s.closed = true
  drained : s.closed = true → (∀ w ∈ s.workers, w = WState.exited) → s.queue = []
  late_exited : s.phase = MPhase.preDuration ∨ s.phase = MPhase.done →
    ∀ w ∈ s.workers, w = WState.exited
  early_nobarrier : s.phase = MPhase.run ∨ s.phase = MPhase.closing ∨ s.phase = MPhase.waiting →
    ∀ e ∈ s.trace, isBarrierEv e = false
  trace_ok : noStatAfterBarrier s.trace = true

/-- A job is accounted for: still unproduced, buffered in the queue, held by a
worker, or already emitted. -/
def holdsJob (s : MState J) (j : J) : Prop :=
  j ∈ s.toEnqueue ∨ j ∈ s.queue ∨ WState.busy j ∈ s.workers ∨ Ev.stat j ∈ s.trace

def exProj : ProjectRef := { slug := "api", id := "3" }

def exTeam : TeamRef := { slug := "core", id := "2", projects := [exProj] }

def exOrg : Org := { slug := "acme", id := "1", teams := [exTeam] }

def exJob : Job := { organization := exOrg, team := exTeam, project := exProj }

def exC1final : MState Job :=
  { cap := 1
    up := true
    toEnqueue := []
    queue := []
    closed := true
    workers := [WState.exited]
    phase := MPhase.done
    trace := [Ev.liveness true, Ev.stat exJob, Ev.counter, Ev.duration] }

def resolutionSeconds : Int := 10

def exProjWeb : ProjectRef := { slug := "web", id := "4" }

def exTeamFull : TeamRef := { slug := "core", id := "2", projects := [exProj, exProjWeb] }

def exOrgFull : Org := { slug := "acme", id := "1", teams := [exTeamFull] }

def exJobApi : Job := { organization := exOrgFull, team := exTeamFull, project := exProj }

def exJobWeb : Job := { organization := exOrgFull, team := exTeamFull, project := exProjWeb }

def exPoint : StatPoint := { ts := 100, val := 5 }

def exClient : Client :=
  { getOrganizations := ([{ slug := "acme" }], none, none)
    getOrganization := fun _ => Except.ok exOrgFull
    getPage := fun _ => ([], none, none)
    getProjectStats := fun _ p q _ _ _ =>
      if p.slug = "api" then
        match q with
        | StatQuery.received => Except.ok [exPoint]
        | StatQuery.rejected => Except.error ()
        | StatQuery.blacklisted => Except.ok []
      else Except.ok [] }

def exExporter : Exporter :=
  { client := exClient
    maxFetchConccurrency := 2
    statResolution := "10s"
    statResolutionDuration := 15
    projectStatDesc :=
      { fqName := buildFQName "sentry" "project" "events_count"
        help := "project count for received events of a given type"
        variableLabels := projectLabels }
    sentryUp :=
      { fqName := "sentry" ++ "_up"
        help := "boolean, 1 if the sentry instance was reachable, zero if not"
        variableLabels := [] }
    scrapeDurationDesc :=
      { fqName := buildFQName "sentry" "exporter" "last_scrape_duration_seconds"
        help := "duration in seconds for the last scrape"
        variableLabels := [] }
    totalScrapesDesc :=
      { fqName := buildFQName "sentry" "exporter" "scrapes_total"
        help := "total number of scrapes"
        variableLabels := [] } }

def exFailClient : Client :=
  { getOrganizations := ([{ slug := "acme" }], some 0, none)
    getOrganization := fun _ => Except.ok exOrg
    getPage := fun _ => ([], none, some ())
    getProjectStats := fun _ _ _ _ _ _ => Except.ok [] }

def exFailExporter : Exporter := { exExporter with client := exFailClient }

def exDetailFailClient : Client :=
  { exClient with getOrganization := fun _ => Except.error () }

def exDetailFailExporter : Exporter := { exExporter with client := exDetailFailClient }

def exCollectOut : List OutEvent :=
  [OutEvent.metric (mkSample exJobApi "received" exPoint),
   OutEvent.upSample true, OutEvent.counterSample 8, OutEvent.durationSample]

/-! ## Lemmas and claim theorems -/

theorem fetchKind_kind {e : Exporter} {job : Job} {now : Int} {en : String × StatQuery}
    {m : MetricSample} (h : fetchKind e job now en = some m) : m.kind = en.1 := by
  unfold fetchKind at h
  split at h
  · exact absurd h (by simp)
  · exact absurd h (by simp)
  · cases h; rfl

theorem countP_filterMap_kinds (e : Exporter) (job : Job) (now : Int) (K : String)
    (tbl : List (String × StatQuery)) :
    (tbl.filterMap (fetchKind e job now)).countP (fun m => m.kind == K) =
      tbl.countP (fun en => en.1 == K && (fetchKind e job now en).isSome) := by
  induction tbl with
  | nil => rfl
  | cons en rest ih =>
    rw [List.filterMap_cons]
    cases h : fetchKind e job now en with
    | none => simp [List.countP_cons, h, ih]
    | some m =>
      have hk := fetchKind_kind h
      simp [List.countP_cons, h, ih, hk]

theorem kindHit_isSome (e : Exporter) (job : Job) (now : Int) (en : String × StatQuery) :
    (fetchKind e job now en).isSome =
      match e.client.getProjectStats job.organization job.project en.2
          (now - e.statResolutionDuration) now e.statResolution with
      | Except.ok (_ :: _) => true
      | _ => false := by
  unfold fetchKind
  split <;> simp_all

theorem perJob_countP (e : Exporter) (job : Job) (now : Int) (K : String)
    (hK : K ∈ collectedProjectStats.map Prod.fst) :
    ((collectProjectStats e job now).2.countP (fun m => m.kind == K)) =
      if kindHit e job now K then 1 else 0 := by
  have hcount := countP_filterMap_kinds e job now K collectedProjectStats
  simp only [collectProjectStats]
  rw [hcount]
  simp only [collectedProjectStats, List.map_cons, List.map_nil] at hK
  simp only [List.mem_cons, List.not_mem_nil, or_false] at hK
  rcases hK with rfl | rfl | rfl <;>
    simp only [collectedProjectStats, kindHit, List.countP_cons, List.countP_nil,
      List.find?, kindHit_isSome] <;>
    split <;> simp_all

theorem scrapeSamples_countP (e : Exporter) (clock : Nat → Int) (K : String)
    (hK : K ∈ collectedProjectStats.map Prod.fst) :
    ∀ (i : Nat) (jobs : List Job),
      (scrapeSamples e clock i jobs).countP (fun m => m.kind == K) =
        kindHitCount e clock K i jobs := by
  intro i jobs
  induction jobs generalizing i with
  | nil => rfl
  | cons j rest ih =>
    simp only [scrapeSamples, kindHitCount, List.countP_append, ih,
      perJob_countP e j (clock i) K hK]

theorem filter_filterMap_kinds (e : Exporter) (job : Job) (now : Int) (K : String)
    (tbl : List (String × StatQuery)) :
    (tbl.filterMap (fetchKind e job now)).filter (fun m => m.kind == K) =
      (tbl.filter (fun en => en.1 == K)).filterMap (fetchKind e job now) := by
  induction tbl with
  | nil => rfl
  | cons en rest ih =>
    rw [List.filterMap_cons]
    cases h : fetchKind e job now en with
    | none =>
      by_cases hk : en.1 = K <;> simp [List.filter_cons, List.filterMap_cons, h, ih, hk]
    | some m =>
      have hkm := fetchKind_kind h
      by_cases hk : en.1 = K <;>
        simp [List.filter_cons, List.filterMap_cons, h, ih, hk, hkm]

theorem walkLoop_err_last (c : Client) :
    ∀ (fuel : Nat) (orgs : List OrgRef) (link : Link) (err : Option Unit)
      (js : List Job) (reqs : List Cursor) (e2 : Option Unit),
      walkLoop c fuel orgs link err = some (js, reqs, e2) →
      ∀ (pre : List Cursor) (cur : Cursor) (post : List Cursor),
        reqs = pre ++ cur :: post →
        (c.getPage cur).2.2 ≠ none →
        post = [] ∧ e2 ≠ none := by
  intro fuel
  induction fuel with
  | zero =>
    intro orgs link err js reqs e2 h pre cur post hdec herr
    unfold walkLoop at h
    split at h
    · simp only [Option.some.injEq, Prod.mk.injEq] at h
      obtain ⟨-, rfl, -⟩ := h
      exact absurd hdec (by simp)
    · split at h
      · simp only [Option.some.injEq, Prod.mk.injEq] at h
        obtain ⟨-, rfl, -⟩ := h
        exact absurd hdec (by simp)
      · exact absurd h (by simp)
  | succ f ih =>
    intro orgs link err js reqs e2 h pre cur post hdec herr
    unfold walkLoop at h
    split at h
    · simp only [Option.some.injEq, Prod.mk.injEq] at h
      obtain ⟨-, rfl, -⟩ := h
      exact absurd hdec (by simp)
    · split at h
      · simp only [Option.some.injEq, Prod.mk.injEq] at h
        obtain ⟨-, rfl, -⟩ := h
        exact absurd hdec (by simp)
      · rename_i cur0
        split at h
        · exact absurd h (by simp)
        · rename_i js0 reqs0 e20 hinner
          simp only [Option.some.injEq, Prod.mk.injEq] at h
          obtain ⟨-, hreqs, he2⟩ := h
          cases pre with
          | nil =>
            simp only [List.nil_append] at hdec
            rw [← hreqs] at hdec
            injection hdec with h1 h2
            rw [← h1] at herr
            have hcond : (c.getPage cur0).1 = [] ∨ (c.getPage cur0).2.2 ≠ none := Or.inr herr
            cases f with
            | zero =>
              unfold walkLoop at hinner
              rw [if_pos hcond] at hinner
              simp only [Option.some.injEq, Prod.mk.injEq] at hinner
              obtain ⟨-, hr0, he20⟩ := hinner
              refine ⟨(hr0.trans h2).symm, ?_⟩
              rw [← he2, ← he20]
              exact herr
            | succ f2 =>
              unfold walkLoop at hinner
              rw [if_pos hcond] at hinner
              simp only [Option.some.injEq, Prod.mk.injEq] at hinner
              obtain ⟨-, hr0, he20⟩ := hinner
              refine ⟨(hr0.trans h2).symm, ?_⟩
              rw [← he2, ← he20]
              exact herr
          | cons p0 pre2 =>
            simp only [List.cons_append] at hdec
            rw [← hreqs] at hdec
            injection hdec with h1 h2
            obtain ⟨hpost, hene⟩ :=
              ih (c.getPage cur0).1 (c.getPage cur0).2.1 (c.getPage cur0).2.2
                js0 reqs0 e20 hinner pre2 cur post h2 herr
            exact ⟨hpost, by rw [← he2]; exact hene⟩

theorem walkLoop_pages_independent (c1 c2 : Client)
    (hpage : c1.getPage = c2.getPage) :
    ∀ (fuel : Nat) (orgs : List OrgRef) (link : Link) (err : Option Unit),
      (walkLoop c1 fuel orgs link err).map (fun r => (r.2.1, r.2.2)) =
        (walkLoop c2 fuel orgs link err).map (fun r => (r.2.1, r.2.2)) := by
  intro fuel
  induction fuel with
  | zero =>
    intro orgs link err
    unfold walkLoop
    split
    · rfl
    · cases link <;> rfl
  | succ f ih =>
    intro orgs link err
    unfold walkLoop
    split
    · rfl
    · cases link with
      | none => rfl
      | some cur =>
      dsimp only
      rw [← hpage]
      have := ih (c1.getPage cur).1 (c1.getPage cur).2.1 (c1.getPage cur).2.2
      cases h1 : walkLoop c1 f (c1.getPage cur).1 (c1.getPage cur).2.1 (c1.getPage cur).2.2 with
      | none =>
        cases h2 : walkLoop c2 f (c1.getPage cur).1 (c1.getPage cur).2.1 (c1.getPage cur).2.2 with
        | none => rfl
        | some r => rw [h1, h2] at this; exact absurd this (by simp)
      | some r =>
        cases h2 : walkLoop c2 f (c1.getPage cur).1 (c1.getPage cur).2.1 (c1.getPage cur).2.2 with
        | none => rw [h1, h2] at this; exact absurd this (by simp)
        | some r2 =>
          rw [h1, h2] at this
          obtain ⟨js1, reqs1, e21⟩ := r
          obtain ⟨js2, reqs2, e22⟩ := r2
          simp only [Option.map, Option.bind, Option.some.injEq, Prod.mk.injEq] at this
          simp [this.1, this.2]

theorem collectOrganizations_pages_independent (e1 e2 : Exporter) (fuel : Nat)
    (horgs : e1.client.getOrganizations = e2.client.getOrganizations)
    (hpage : e1.client.getPage = e2.client.getPage) :
    (collectOrganizations e1 fuel).map (fun r => (r.2.1, r.2.2)) =
      (collectOrganizations e2 fuel).map (fun r => (r.2.1, r.2.2)) := by
  unfold collectOrganizations
  rw [← horgs]
  rcases hgo : e1.client.getOrganizations with ⟨orgs, link, err⟩
  dsimp only
  have hw := walkLoop_pages_independent e1.client e2.client hpage fuel orgs link err
  cases h1 : walkLoop e1.client fuel orgs link err with
  | none =>
    cases h2 : walkLoop e2.client fuel orgs link err with
    | none => rfl
    | some r => rw [h1, h2] at hw; exact absurd hw (by simp)
  | some r =>
    cases h2 : walkLoop e2.client fuel orgs link err with
    | none => rw [h1, h2] at hw; exact absurd hw (by simp)
    | some r2 =>
      rw [h1, h2] at hw
      obtain ⟨js1, reqs1, e21⟩ := r
      obtain ⟨js2, reqs2, e22⟩ := r2
      simp only [Option.map, Option.bind, Option.some.injEq, Prod.mk.injEq] at hw
      simp [hw.1, hw.2]

theorem mem_of_getElemQ {α : Type} {l : List α} {i : Nat} {a : α}
    (h : l[i]? = some a) : a ∈ l := by
  obtain ⟨hlt, hget⟩ := List.getElem?_eq_some_iff.mp h
  exact hget ▸ List.getElem_mem hlt

theorem lt_of_getElemQ {α : Type} {l : List α} {i : Nat} {a : α}
    (h : l[i]? = some a) : i < l.length :=
  (List.getElem?_eq_some_iff.mp h).1

theorem mem_set_self {α : Type} {l : List α} {i : Nat} {a : α}
    (h : i < l.length) : a ∈ l.set i a :=
  mem_of_getElemQ (List.getElem?_set_self h)

theorem mem_set_of_ne {α : Type} {l : List α} {i : Nat} {a b : α}
    (h : a ∈ l) (hne : l[i]? ≠ some a) : a ∈ l.set i b := by
  obtain ⟨k, hk, hg⟩ := List.mem_iff_getElem.mp h
  have hki : i ≠ k := by
    rintro rfl
    exact hne (by rw [List.getElem?_eq_getElem hk, hg])
  refine mem_of_getElemQ (i := k) ?_
  rw [List.getElem?_set_ne hki, List.getElem?_eq_getElem hk, hg]

theorem noStatAfterBarrier_app_of_nobarrier {t : List (Ev J)}
    (h : ∀ e ∈ t, isBarrierEv e = false) (x : Ev J) :
    noStatAfterBarrier (t ++ [x]) = true := by
  induction t with
  | nil => simp [noStatAfterBarrier]
  | cons e r ih =>
    simp only [List.cons_append, noStatAfterBarrier, Bool.and_eq_true, Bool.or_eq_true]
    refine ⟨Or.inl ?_, ih (fun y hy => h y (List.mem_cons_of_mem e hy))⟩
    simp [h e (List.mem_cons_self e r)]

theorem noStatAfterBarrier_app_nonstat {t : List (Ev J)}
    (h : noStatAfterBarrier t = true) {x : Ev J} (hx : isStatEv x = false) :
    noStatAfterBarrier (t ++ [x]) = true := by
  induction t with
  | nil => simp [noStatAfterBarrier]
  | cons e r ih =>
    simp only [List.cons_append, noStatAfterBarrier, Bool.and_eq_true, Bool.or_eq_true] at h ⊢
    refine ⟨?_, ih h.2⟩
    rcases h.1 with h1 | h1
    · exact Or.inl h1
    · refine Or.inr ?_
      have : r ++ [x] = r.append [x] := rfl
      rw [← this, List.all_append]
      simp [h1, hx]

theorem minv_init (J : Type) (C : Nat) (jobs : List J) (up : Bool) :
    MInv (initM J C jobs up) := by
  constructor <;> simp [initM, noStatAfterBarrier]

theorem minv_step {s t : MState J} (h : MInv s) (hs : Step s t) : MInv t := by
  cases hs with
  | enq j rest hp ht hq hc =>
    refine ⟨h.wlen, ?_, ?_, ?_, ?_, ?_, h.early_nobarrier, h.trace_ok⟩
    · simpa using hq
    · intro hne
      exact absurd hp hne
    · intro hmem
      exact absurd (h.exited_closed hmem) (by simp [hc])
    · intro hcl _
      exact absurd hcl (by simp [hc])
    · intro hlate
      rw [hp] at hlate
      rcases hlate with h1 | h1 <;> exact absurd h1 (by simp)
  | live hp ht =>
    refine ⟨h.wlen, h.qlen, ?_, h.exited_closed, h.drained, ?_, ?_, ?_⟩
    · intro _
      exact ht
    · intro hlate
      rcases hlate with h1 | h1 <;> exact absurd h1 (by simp)
    · intro _ e he
      rcases List.mem_append.mp he with h1 | h1
      · exact h.early_nobarrier (Or.inl hp) e h1
      · rcases List.mem_singleton.mp h1 with rfl
        rfl
    · exact noStatAfterBarrier_app_nonstat h.trace_ok rfl
  | closeQ hp =>
    refine ⟨h.wlen, h.qlen, ?_, ?_, ?_, ?_, ?_, h.trace_ok⟩
    · intro _
      exact h.run_enq (by simp [hp])
    · intro _
      rfl
    · intro _ hall
      rcases hwe : s.workers with _ | ⟨w0, ws⟩
      · have hcap : s.cap = 0 := by rw [← h.wlen, hwe]; rfl
        have hlen : s.queue.length = 0 :=
          Nat.le_antisymm (hcap ▸ h.qlen) (Nat.zero_le _)
        exact List.eq_nil_of_length_eq_zero hlen
      · have hw0 : w0 ∈ s.workers := by rw [hwe]; exact List.mem_cons_self w0 ws
        have hex : WState.exited ∈ s.workers := by
          have := hall w0 (by rw [hwe] at hw0 ⊢; exact hw0)
          rw [hwe] at hw0 ⊢
          exact this ▸ hw0
        exact h.drained (h.exited_closed hex) hall
    · intro hlate
      rcases hlate with h1 | h1 <;> exact absurd h1 (by simp)
    · intro _
      exact h.early_nobarrier (Or.inr (Or.inl hp))
  | counter hp hw =>
    refine ⟨h.wlen, h.qlen, ?_, h.exited_closed, h.drained, ?_, ?_, ?_⟩
    · intro _
      exact h.run_enq (by simp [hp])
    · intro _
      exact hw
    · intro hearly
      rcases hearly with h1 | h1 | h1 <;> exact absurd h1 (by simp)
    · exact noStatAfterBarrier_app_nonstat h.trace_ok rfl
  | duration hp =>
    refine ⟨h.wlen, h.qlen, ?_, h.exited_closed, h.drained, ?_, ?_, ?_⟩
    · intro _
      exact h.run_enq (by simp [hp])
    · intro _
      exact h.late_exited (Or.inl hp)
    · intro hearly
      rcases hearly with h1 | h1 | h1 <;> exact absurd h1 (by simp)
    · exact noStatAfterBarrier_app_nonstat h.trace_ok rfl
  | take i j rest hw hq =>
    refine ⟨?_, ?_, h.run_enq, ?_, ?_, ?_, h.early_nobarrier, h.trace_ok⟩
    · simp [h.wlen]
    · have := h.qlen
      rw [hq] at this
      simp only [List.length_cons] at this
      simp only
      omega
    · intro hmem
      rcases List.mem_or_eq_of_mem_set hmem with h1 | h1
      · exact h.exited_closed h1
      · exact absurd h1 (by simp)
    · intro _ hall
      have hbusy : WState.busy j ∈ s.workers.set i (WState.busy j) :=
        mem_set_self (lt_of_getElemQ hw)
      exact absurd (hall _ hbusy) (by simp)
    · intro hlate
      have hall := h.late_exited hlate
      have hidle : WState.idle ∈ s.workers := mem_of_getElemQ hw
      exact absurd (hall _ hidle) (by simp)
  | emit i j hw =>
    refine ⟨?_, h.qlen, h.run_enq, ?_, ?_, ?_, ?_, ?_⟩
    · simp [h.wlen]
    · intro hmem
      rcases List.mem_or_eq_of_mem_set hmem with h1 | h1
      · exact h.exited_closed h1
      · exact absurd h1 (by simp)
    · intro _ hall
      have hidle : WState.idle ∈ s.workers.set i WState.idle :=
        mem_set_self (lt_of_getElemQ hw)
      exact absurd (hall _ hidle) (by simp)
    · intro hlate
      have hall := h.late_exited hlate
      have hbusy : WState.busy j ∈ s.workers := mem_of_getElemQ hw
      exact absurd (hall _ hbusy) (by simp)
    · intro hearly e he
      rcases List.mem_append.mp he with h1 | h1
      · exact h.early_nobarrier hearly e h1
      · rcases List.mem_singleton.mp h1 with rfl
        rfl
    · rcases hph : s.phase with _ | _ | _ | _ | _
      · exact noStatAfterBarrier_app_of_nobarrier (h.early_nobarrier (Or.inl hph)) _
      · exact noStatAfterBarrier_app_of_nobarrier
          (h.early_nobarrier (Or.inr (Or.inl hph))) _
      · exact noStatAfterBarrier_app_of_nobarrier
          (h.early_nobarrier (Or.inr (Or.inr hph))) _
      · have hall := h.late_exited (Or.inl hph)
        have hbusy : WState.busy j ∈ s.workers := mem_of_getElemQ hw
        exact absurd (hall _ hbusy) (by simp)
      · have hall := h.late_exited (Or.inr hph)
        have hbusy : WState.busy j ∈ s.workers := mem_of_getElemQ hw
        exact absurd (hall _ hbusy) (by simp)
  | wexit i hw hq hc =>
    refine ⟨?_, h.qlen, h.run_enq, ?_, ?_, ?_, h.early_nobarrier, h.trace_ok⟩
    · simp [h.wlen]
    · intro _
      exact hc
    · intro _ _
      exact hq
    · intro hlate
      have hall := h.late_exited hlate
      have hidle : WState.idle ∈ s.workers := mem_of_getElemQ hw
      exact absurd (hall _ hidle) (by simp)

theorem minv_reach {s t : MState J} (h : MInv s) (hr : Reach s t) : MInv t := by
  induction hr with
  | refl => exact h
  | tail _ hstep ih => exact minv_step ih hstep

theorem step_cap {s t : MState J} (h : Step s t) : t.cap = s.cap := by
  cases h <;> rfl

theorem reach_cap {s t : MState J} (h : Reach s t) : t.cap = s.cap := by
  induction h with
  | refl => rfl
  | tail _ hstep ih => rw [step_cap hstep, ih]

theorem holdsJob_step {s t : MState J} {j : J} (hs : Step s t) (h : holdsJob s j) :
    holdsJob t j := by
  cases hs with
  | enq j0 rest hp ht hq hc =>
    rcases h with h1 | h2 | h3 | h4
    · rw [ht] at h1
      rcases List.mem_cons.mp h1 with rfl | h1
      · exact Or.inr (Or.inl (List.mem_append_right _ (List.mem_singleton.mpr rfl)))
      · exact Or.inl h1
    · exact Or.inr (Or.inl (List.mem_append_left _ h2))
    · exact Or.inr (Or.inr (Or.inl h3))
    · exact Or.inr (Or.inr (Or.inr h4))
  | live hp ht =>
    rcases h with h1 | h2 | h3 | h4
    · exact Or.inl h1
    · exact Or.inr (Or.inl h2)
    · exact Or.inr (Or.inr (Or.inl h3))
    · exact Or.inr (Or.inr (Or.inr (List.mem_append_left _ h4)))
  | closeQ hp =>
    rcases h with h1 | h2 | h3 | h4
    · exact Or.inl h1
    · exact Or.inr (Or.inl h2)
    · exact Or.inr (Or.inr (Or.inl h3))
    · exact Or.inr (Or.inr (Or.inr h4))
  | counter hp hw =>
    rcases h with h1 | h2 | h3 | h4
    · exact Or.inl h1
    · exact Or.inr (Or.inl h2)
    · exact Or.inr (Or.inr (Or.inl h3))
    · exact Or.inr (Or.inr (Or.inr (List.mem_append_left _ h4)))
  | duration hp =>
    rcases h with h1 | h2 | h3 | h4
    · exact Or.inl h1
    · exact Or.inr (Or.inl h2)
    · exact Or.inr (Or.inr (Or.inl h3))
    · exact Or.inr (Or.inr (Or.inr (List.mem_append_left _ h4)))
  | take i j0 rest hw hq =>
    rcases h with h1 | h2 | h3 | h4
    · exact Or.inl h1
    · rw [hq] at h2
      rcases List.mem_cons.mp h2 with rfl | h2
      · exact Or.inr (Or.inr (Or.inl (mem_set_self (lt_of_getElemQ hw))))
      · exact Or.inr (Or.inl h2)
    · refine Or.inr (Or.inr (Or.inl (mem_set_of_ne h3 ?_)))
      rw [hw]
      simp
    · exact Or.inr (Or.inr (Or.inr h4))
  | emit i j0 hw =>
    rcases h with h1 | h2 | h3 | h4
    · exact Or.inl h1
    · exact Or.inr (Or.inl h2)
    · by_cases hj : j = j0
      · subst hj
        exact Or.inr (Or.inr (Or.inr
          (List.mem_append_right _ (List.mem_singleton.mpr rfl))))
      · refine Or.inr (Or.inr (Or.inl (mem_set_of_ne h3 ?_)))
        rw [hw]
        simp only [ne_eq, Option.some.injEq, WState.busy.injEq]
        exact fun hh => hj hh.symm
    · exact Or.inr (Or.inr (Or.inr (List.mem_append_left _ h4)))
  | wexit i hw hq hc =>
    rcases h with h1 | h2 | h3 | h4
    · exact Or.inl h1
    · exact Or.inr (Or.inl h2)
    · refine Or.inr (Or.inr (Or.inl (mem_set_of_ne h3 ?_)))
      rw [hw]
      simp
    · exact Or.inr (Or.inr (Or.inr h4))

theorem holdsJob_reach {s t : MState J} {j : J} (h : holdsJob s j) (hr : Reach s t) :
    holdsJob t j := by
  induction hr with
  | refl => exact h
  | tail _ hstep ih => exact holdsJob_step hstep ih

theorem jobs_processed {J : Type} {C : Nat} {jobs : List J} {up : Bool}
    {s : MState J} (hr : Reach (initM J C jobs up) s) (hd : s.phase = MPhase.done) :
    ∀ j ∈ jobs, Ev.stat j ∈ s.trace := by
  intro j hj
  have hinv := minv_reach (minv_init J C jobs up) hr
  have hhold : holdsJob s j := holdsJob_reach (Or.inl hj) hr
  have hall : ∀ w ∈ s.workers, w = WState.exited := hinv.late_exited (Or.inr hd)
  rcases hhold with h1 | h2 | h3 | h4
  · rw [hinv.run_enq (by simp [hd])] at h1
    exact absurd h1 (List.not_mem_nil j)
  · rcases hwe : s.workers with _ | ⟨w0, ws⟩
    · have hcap : s.cap = 0 := by rw [← hinv.wlen, hwe]; rfl
      have hlen : s.queue.length = 0 :=
        Nat.le_antisymm (hcap ▸ hinv.qlen) (Nat.zero_le _)
      rw [List.eq_nil_of_length_eq_zero hlen] at h2
      exact absurd h2 (List.not_mem_nil j)
    · have hw0 : w0 ∈ s.workers := by rw [hwe]; exact List.mem_cons_self w0 ws
      have hex : WState.exited ∈ s.workers := (hall w0 hw0) ▸ hw0
      rw [hinv.drained (hinv.exited_closed hex) hall] at h2
      exact absurd h2 (List.not_mem_nil j)
  · exact absurd (hall _ h3) (by simp)
  · exact h4

theorem exC1_reach : Reach (initM Job 1 [exJob] true) exC1final := by
  refine Relation.ReflTransGen.head (Step.enq _ exJob [] rfl rfl (by decide) rfl) ?_
  refine Relation.ReflTransGen.head (Step.live _ rfl rfl) ?_
  refine Relation.ReflTransGen.head (Step.closeQ _ rfl) ?_
  refine Relation.ReflTransGen.head (Step.take _ 0 exJob [] rfl rfl) ?_
  refine Relation.ReflTransGen.head (Step.emit _ 0 exJob rfl) ?_
  refine Relation.ReflTransGen.head (Step.wexit _ 0 rfl rfl rfl) ?_
  refine Relation.ReflTransGen.head (Step.counter _ rfl (by decide)) ?_
  refine Relation.ReflTransGen.head (Step.duration _ rfl) ?_
  exact Relation.ReflTransGen.refl

theorem exExporter_new : NewExporter exClient 2 "sentry" = Except.ok exExporter := rfl

theorem table_filter_eq (K : String) (q : StatQuery)
    (hK : (K, q) ∈ collectedProjectStats) :
    collectedProjectStats.filter (fun en => en.1 == K) = [(K, q)] := by
  simp only [collectedProjectStats, List.mem_cons, List.not_mem_nil, or_false] at hK
  rcases hK with h | h | h <;>
    (simp only [Prod.mk.injEq] at h; obtain ⟨rfl, rfl⟩ := h) <;> decide

/-- C1 (amended): in every interleaved execution of a scrape, the
scrape-counter and scrape-duration samples are sent only after every worker has
finished all project-statistic work: no project-statistic emission follows them
in the trace, and once the counter sample is on the channel every worker has
exited.  (The liveness sample does not enjoy this property; see the
counterexample.) -/
theorem counter_duration_after_stat_work (C : Nat) (jobs : List Job) (up : Bool)
    (s : MState Job) (h : Reach (initM Job C jobs up) s) :
    noStatAfterBarrier s.trace = true ∧
    (Ev.counter ∈ s.trace → ∀ w ∈ s.workers, w = WState.exited) := by
  have hinv := minv_reach (minv_init Job C jobs up) h
  refine ⟨hinv.trace_ok, ?_⟩
  intro hct
  rcases hph : s.phase with _ | _ | _ | _ | _
  · exact absurd (hinv.early_nobarrier (Or.inl hph) _ hct) (by simp [isBarrierEv])
  · exact absurd (hinv.early_nobarrier (Or.inr (Or.inl hph)) _ hct) (by simp [isBarrierEv])
  · exact absurd (hinv.early_nobarrier (Or.inr (Or.inr hph)) _ hct) (by simp [isBarrierEv])
  · exact hinv.late_exited (Or.inl hph)
  · exact hinv.late_exited (Or.inr hph)

/-- C1 witness: the amended theorem applied to a concrete completed
execution with one worker and one job. -/
theorem counter_duration_after_stat_work_witness :
    noStatAfterBarrier exC1final.trace = true :=
  (counter_duration_after_stat_work 1 [exJob] true exC1final exC1_reach).1

/-- C1 counterexample: the claim as stated is false for the liveness sample.
`collectOrganizations` sends the `sentryUp` sample *before* its deferred
`close(workQueue); wg.Wait()` runs, so there is a completed execution (one
worker, one job, exhibited explicitly) whose trace contains a
project-statistic emission after the liveness emission. -/
theorem liveness_barrier_counterexample :
    (Reach (initM Job 1 [exJob] true) exC1final ∧ exC1final.phase = MPhase.done ∧
      statAfterLiveness exC1final.trace = true) ∧
    ¬ (∀ s : MState Job, Reach (initM Job 1 [exJob] true) s → s.phase = MPhase.done →
        statAfterLiveness s.trace = false) := by
  refine ⟨⟨exC1_reach, rfl, by decide⟩, ?_⟩
  intro hclaim
  exact absurd (hclaim exC1final exC1_reach rfl) (by decide)

/-- C2: for a scrape with configured maximum concurrency `C` (`C ≥ 1`),
exactly `C` workers exist before any job is produced, the single job queue has
capacity `C`, and in every reachable state at most `C` statistic fetches are in
flight (and at most `C` jobs are buffered). -/
theorem worker_pool_bounded (C : Nat) (jobs : List Job) (up : Bool) (hC : 1 ≤ C)
    (s : MState Job) (h : Reach (initM Job C jobs up) s) :
    (initM Job C jobs up).workers = List.replicate C WState.idle ∧
    (initM Job C jobs up).toEnqueue = jobs ∧
    (initM Job C jobs up).trace = [] ∧
    s.cap = C ∧ s.workers.length = C ∧ busyCount s.workers ≤ C ∧ s.queue.length ≤ C := by
  have hinv := minv_reach (minv_init Job C jobs up) h
  have hcap : s.cap = C := reach_cap h
  refine ⟨rfl, rfl, rfl, hcap, hcap ▸ hinv.wlen, ?_, hcap ▸ hinv.qlen⟩
  calc busyCount s.workers ≤ s.workers.length := List.countP_le_length _
  _ = C := hcap ▸ hinv.wlen

/-- C2 witness: the bound evaluated at the initial state of a concrete
scrape with `C = 2`. -/
theorem worker_pool_bounded_witness :
    busyCount (initM Job 2 [exJob] true).workers ≤ 2 :=
  (worker_pool_bounded 2 [exJob] true (by decide) _
    Relation.ReflTransGen.refl).2.2.2.2.2.1

/-- C3: for every scrape and kind name `K` of the static table, the number of
kind-`K` samples emitted equals the number of jobs whose kind-`K` fetch
succeeded with a non-empty series; errors and empty results produce no
sample. -/
theorem kind_sample_count (e : Exporter) (clock : Nat → Int) (K : String)
    (hK : K ∈ collectedProjectStats.map Prod.fst) (i : Nat) (jobs : List Job) :
    (scrapeSamples e clock i jobs).countP (fun m => m.kind == K) =
      kindHitCount e clock K i jobs :=
  scrapeSamples_countP e clock K hK i jobs

/-- C3 witness: counted on the concrete two-job scrape of the spec example
("api" succeeds for received, "web" is empty everywhere). -/
theorem kind_sample_count_witness :
    (scrapeSamples exExporter (fun _ => 1000) 0 [exJobApi, exJobWeb]).countP
        (fun m => m.kind == "received") =
      kindHitCount exExporter (fun _ => 1000) "received" 0 [exJobApi, exJobWeb] ∧
    kindHitCount exExporter (fun _ => 1000) "received" 0 [exJobApi, exJobWeb] = 1 :=
  ⟨kind_sample_count exExporter (fun _ => 1000) "received" (by decide) 0
      [exJobApi, exJobWeb],
   by decide⟩

/-- C4: when the fetch of table entry `(K, q)` succeeds for a job with a
non-empty series, exactly one kind-`K` sample is emitted for the job, and it
carries the last element of the series as value and timestamp, labeled with
the job identifiers and the kind name. -/
theorem success_emits_last_element_sample (e : Exporter) (job : Job) (now : Int)
    (K : String) (q : StatQuery) (stats : List StatPoint)
    (hK : (K, q) ∈ collectedProjectStats) (hne : stats ≠ [])
    (hf : e.client.getProjectStats job.organization job.project q
        (now - e.statResolutionDuration) now e.statResolution = Except.ok stats) :
    ((collectProjectStats e job now).2).filter (fun m => m.kind == K) =
      [mkSample job K (stats.getLast hne)] := by
  simp only [collectProjectStats]
  rw [filter_filterMap_kinds, table_filter_eq K q hK]
  cases stats with
  | nil => exact absurd rfl hne
  | cons s rest =>
    simp [List.filterMap_cons, fetchKind, hf]

/-- C4 witness: evaluated for the concrete "api" job, kind received, series
`[(100, 5)]`. -/
theorem success_emits_last_element_sample_witness :
    ((collectProjectStats exExporter exJobApi 1000).2).filter
        (fun m => m.kind == "received") =
      [mkSample exJobApi "received" exPoint] := by
  have h := success_emits_last_element_sample exExporter exJobApi 1000 "received"
    StatQuery.received [exPoint] (by decide) (by decide) rfl
  exact h

/-- C7: a fetch error for one kind of a job omits only that (job, kind) pair:
every kind of the table is still queried exactly once with the same window,
no kind-`K` sample is emitted, and any other kind with a successful non-empty
series still has its sample emitted. -/
theorem kind_error_isolated (e : Exporter) (job : Job) (now : Int)
    (K : String) (q : StatQuery) (hK : (K, q) ∈ collectedProjectStats)
    (herr : e.client.getProjectStats job.organization job.project q
        (now - e.statResolutionDuration) now e.statResolution = Except.error ()) :
    (collectProjectStats e job now).1 =
      collectedProjectStats.map (fun en => statCall e now en.2) ∧
    (∀ m ∈ (collectProjectStats e job now).2, m.kind ≠ K) ∧
    ∀ (K2 : String) (q2 : StatQuery) (stats : List StatPoint) (hne : stats ≠ []),
      (K2, q2) ∈ collectedProjectStats →
      e.client.getProjectStats job.organization job.project q2
          (now - e.statResolutionDuration) now e.statResolution = Except.ok stats →
      mkSample job K2 (stats.getLast hne) ∈ (collectProjectStats e job now).2 := by
  refine ⟨rfl, ?_, ?_⟩
  · have hfil : ((collectProjectStats e job now).2).filter (fun m => m.kind == K) = [] := by
      simp only [collectProjectStats]
      rw [filter_filterMap_kinds, table_filter_eq K q hK]
      simp [List.filterMap_cons, fetchKind, herr]
    intro m hm hkm
    have hmm : m ∈ ((collectProjectStats e job now).2).filter (fun m => m.kind == K) :=
      List.mem_filter.mpr ⟨hm, by simp [hkm]⟩
    rw [hfil] at hmm
    exact absurd hmm (List.not_mem_nil m)
  · intro K2 q2 stats hne hK2 hf2
    refine List.mem_filterMap.mpr ⟨(K2, q2), hK2, ?_⟩
    cases stats with
    | nil => exact absurd rfl hne
    | cons s rest => simp [fetchKind, hf2]

/-- C7 witness: for the concrete "api" job whose rejected fetch errors, the
received sample is still emitted and all three kinds are queried. -/
theorem kind_error_isolated_witness :
    (collectProjectStats exExporter exJobApi 1000).1 =
      collectedProjectStats.map (fun en => statCall exExporter 1000 en.2) ∧
    mkSample exJobApi "received" exPoint ∈ (collectProjectStats exExporter exJobApi 1000).2 := by
  have h := kind_error_isolated exExporter exJobApi 1000 "rejected" StatQuery.rejected
    (by decide) rfl
  refine ⟨h.1, ?_⟩
  have h2 := h.2.2 "received" StatQuery.received [exPoint] (by decide) (by decide) rfl
  exact h2

/-- C5: when fetching some organization-list page fails, no further page is
requested (the failing cursor is the last one), the scrape reports liveness 0
(`upVal = 0`, the emitted liveness sample has value false/0), and every job
enqueued before the failure is still processed to completion by the workers
before the collection operation returns. -/
theorem page_failure_contained (e : Exporter) (fuel : Nat)
    (jobs : List Job) (reqs : List Cursor) (live : Bool)
    (hw : collectOrganizations e fuel = some (jobs, reqs, live))
    (pre : List Cursor) (cur : Cursor) (post : List Cursor)
    (hdec : reqs = pre ++ cur :: post)
    (herr : (e.client.getPage cur).2.2 ≠ none) :
    post = [] ∧ live = false ∧
    (∀ (clock : Nat → Int) (n : Nat),
      Collect e fuel clock n =
        some ((scrapeSamples e clock 0 jobs).map OutEvent.metric
            ++ [OutEvent.upSample false, OutEvent.counterSample (n + 1),
                OutEvent.durationSample],
          n + 1)) ∧
    ∀ (C : Nat) (up : Bool) (s : MState Job),
      Reach (initM Job C jobs up) s → s.phase = MPhase.done →
      ∀ j ∈ jobs, Ev.stat j ∈ s.trace := by
  have hworig := hw
  unfold collectOrganizations at hw
  rcases hgo : e.client.getOrganizations with ⟨orgs, link, err⟩
  rw [hgo] at hw
  dsimp only at hw
  cases hwl : walkLoop e.client fuel orgs link err with
  | none => rw [hwl] at hw; exact absurd hw (by simp)
  | some r =>
    obtain ⟨js0, reqs0, e20⟩ := r
    rw [hwl] at hw
    simp only [Option.some.injEq, Prod.mk.injEq] at hw
    obtain ⟨rfl, rfl, rfl⟩ := hw
    obtain ⟨hpost, hne⟩ :=
      walkLoop_err_last e.client fuel orgs link err _ _ _ hwl pre cur post hdec herr
    have hlive : e20.isNone = false := by
      cases e20 with
      | none => exact absurd rfl hne
      | some u => rfl
    refine ⟨hpost, hlive, ?_, ?_⟩
    · intro clock n
      simp only [Collect, hworig]
      rw [hlive]
    · intro C up s hr hd
      exact jobs_processed hr hd

/-- C5 witness: a concrete client whose second organization page fails:
the one job of page 1 is still processed, liveness is 0. -/
theorem page_failure_contained_witness :
    ([] : List Cursor) = [] ∧ false = false ∧
    Collect exFailExporter 5 (fun _ => 0) 7 =
      some ((scrapeSamples exFailExporter (fun _ => 0) 0 [exJob]).map OutEvent.metric
          ++ [OutEvent.upSample false, OutEvent.counterSample 8, OutEvent.durationSample],
        8) ∧
    Ev.stat exJob ∈ exC1final.trace := by
  have h := page_failure_contained exFailExporter 5 [exJob] [0] false (by decide)
    [] 0 [] rfl (by decide)
  exact ⟨h.1, h.2.1, h.2.2.1 (fun _ => 0) 7,
    h.2.2.2 1 true exC1final exC1_reach rfl exJob (by decide)⟩

/-- C6: an organization-detail fetch failure only skips that organization:
it contributes no jobs, the surrounding organizations of the page are
unaffected, and the page traversal and the liveness value do not depend on
organization-detail results at all. -/
theorem org_detail_failure_isolated (c : Client) (ref : OrgRef)
    (herr : c.getOrganization ref.slug = Except.error ())
    (l1 l2 : List OrgRef) :
    orgJobs c ref = [] ∧
    ((l1 ++ ref :: l2).map (orgJobs c)).flatten =
      (l1.map (orgJobs c)).flatten ++ (l2.map (orgJobs c)).flatten ∧
    ∀ (e1 e2 : Exporter) (fuel : Nat),
      e1.client.getOrganizations = e2.client.getOrganizations →
      e1.client.getPage = e2.client.getPage →
      (collectOrganizations e1 fuel).map (fun r => (r.2.1, r.2.2)) =
        (collectOrganizations e2 fuel).map (fun r => (r.2.1, r.2.2)) := by
  have h1 : orgJobs c ref = [] := by simp [orgJobs, herr]
  refine ⟨h1, ?_,
    fun e1 e2 fuel ho hp => collectOrganizations_pages_independent e1 e2 fuel ho hp⟩
  simp [List.map_append, h1]

/-- C6 witness: a concrete client whose detail fetch always fails produces
the same page requests and liveness as one whose detail fetch succeeds. -/
theorem org_detail_failure_isolated_witness :
    orgJobs exDetailFailClient { slug := "acme" } = [] ∧
    (collectOrganizations exDetailFailExporter 3).map (fun r => (r.2.1, r.2.2)) =
      (collectOrganizations exExporter 3).map (fun r => (r.2.1, r.2.2)) := by
  have h := org_detail_failure_isolated exDetailFailClient { slug := "acme" } rfl [] []
  exact ⟨h.1, h.2.2 exDetailFailExporter exExporter 3 rfl rfl⟩

/-- C8: for an exporter built by `NewExporter`, every per-kind statistics
query of a job uses the same trailing window ending at the fetch start time
`now` (`since = now - 15`, `until = now`, in seconds), with fixed resolution
"10s"; the 10-second bucket width differs from the 15-second lookback. -/
theorem fetch_window_fixed (client : Client) (conc : Nat) (ns : String) (ex : Exporter)
    (h : NewExporter client conc ns = Except.ok ex) (job : Job) (now : Int) :
    (collectProjectStats ex job now).1 =
      collectedProjectStats.map
        (fun en => { query := en.2, since := now - 15, untilT := now, resolution := "10s" }) ∧
    ex.statResolution = "10s" ∧ ex.statResolutionDuration = 15 ∧
    resolutionSeconds ≠ ex.statResolutionDuration := by
  unfold NewExporter at h
  injection h with h
  subst h
  refine ⟨rfl, rfl, rfl, ?_⟩
  show (10 : Int) ≠ 15
  decide

/-- C8 witness: the queries issued for the concrete "api" job at
`now = 1000`. -/
theorem fetch_window_fixed_witness :
    (collectProjectStats exExporter exJobApi 1000).1 =
      collectedProjectStats.map
        (fun en => { query := en.2, since := 1000 - 15, untilT := 1000, resolution := "10s" }) ∧
    resolutionSeconds ≠ exExporter.statResolutionDuration := by
  have h := fetch_window_fixed exClient 2 "sentry" exExporter exExporter_new exJobApi 1000
  exact ⟨h.1, h.2.2.2⟩

/-- C9: every completed invocation of `Collect` increments the scrape
counter by exactly 1 and emits the incremented value, whatever the scrape
outcome; over any sequence of `k` completed invocations the counter grows by
exactly `k`. -/
theorem scrape_counter_increments (e : Exporter) (fuel : Nat) (clock : Nat → Int)
    (scrapes : Nat) (out : List OutEvent) (n2 : Nat)
    (h : Collect e fuel clock scrapes = some (out, n2)) :
    n2 = scrapes + 1 ∧ OutEvent.counterSample (scrapes + 1) ∈ out ∧
    ∀ (k m : Nat), collectIter e fuel clock k scrapes = some m → m = scrapes + k := by
  have hmain : ∀ (n : Nat) (out2 : List OutEvent) (n3 : Nat),
      Collect e fuel clock n = some (out2, n3) →
      n3 = n + 1 ∧ OutEvent.counterSample (n + 1) ∈ out2 := by
    intro n out2 n3 hc
    unfold Collect at hc
    split at hc
    · exact absurd hc (by simp)
    · simp only [Option.some.injEq, Prod.mk.injEq] at hc
      refine ⟨hc.2.symm, ?_⟩
      rw [← hc.1]
      simp
  have hiter : ∀ (k n m : Nat), collectIter e fuel clock k n = some m → m = n + k := by
    intro k
    induction k with
    | zero =>
      intro n m hh
      simp only [collectIter, Option.some.injEq] at hh
      omega
    | succ k2 ih =>
      intro n m hh
      unfold collectIter at hh
      split at hh
      · exact absurd hh (by simp)
      · rename_i out2 n3 hcp
        have h1 := (hmain n out2 n3 hcp).1
        have h2 := ih n3 m hh
        omega
  exact ⟨(hmain scrapes out n2 h).1, (hmain scrapes out n2 h).2,
    fun k m hk => hiter k scrapes m hk⟩

/-- C9 witness: three consecutive collects on the concrete client take the
counter from 7 to 10, one per call. -/
theorem scrape_counter_increments_witness :
    (8 : Nat) = 7 + 1 ∧ OutEvent.counterSample (7 + 1) ∈ exCollectOut ∧
    (10 : Nat) = 7 + 3 := by
  have h := scrape_counter_increments exExporter 5 (fun _ => 1000) 7 exCollectOut 8
    (by decide)
  exact ⟨h.1, h.2.1, h.2.2 3 10 (by decide)⟩

/-- C10: `NewExporter` returns an exporter and a nil error for every client,
concurrency value and namespace; the caller branch handling a constructor
error is unreachable. -/
theorem new_exporter_never_fails (client : Client) (conc : Nat) (ns : String) :
    (∃ ex : Exporter, NewExporter client conc ns = Except.ok ex) ∧
    ∀ u : Unit, NewExporter client conc ns ≠ Except.error u :=
  ⟨⟨_, rfl⟩, fun u h => by simp [NewExporter] at h⟩

end SentryExporter
